import Mathlib

/-!
Verification of the turn-gated streaming controller of the voice-client
repository.  The definitions below are shallow embeddings of the TypeScript
source: the adaptive playback buffer (src/services/audio/input-processor.ts and
the identical playback logic of src/services/audio/service.ts), the microphone
gate timers (AudioService.resumeMicrophone), the reconnection policy, and the
client connect/disconnect guards (src/ModoVoiceClient.ts).  Numeric config
values are embedded as rationals; byte buffers as lists of naturals; timers as
explicit records driven by a millisecond-stepped scheduler.
-/

set_option maxRecDepth 4000

/-- A byte chunk (Uint8Array) is modelled as a list of byte values. -/
abbrev Chunk := List ℕ

/-- Playback state enum from src/services/audio/audio (IDLE, PLAYING, COMPLETED). -/
inductive AudioPlaybackState where
  | IDLE
  | PLAYING
  | COMPLETED
deriving DecidableEq, Repr

/-- Audio configuration fields consulted by the playback decision
(src/shared/types/config AudioConfig).  The thresholds are rationals so that
the 0.75 relaxation of attemptPlayback is exact. -/
structure AudioConfig where
  minBufferSize : ℚ
  targetChunks : ℚ
  playbackRetryInterval : ℕ
deriving DecidableEq, Repr

/-- Mutable state of AudioInputProcessor (src/services/audio/input-processor.ts)
restricted to the fields the playback pipeline reads or writes: the pending
chunk sequence, its running byte count, the streaming-complete flag, the
playback state, the retry timer (None when null, otherwise the scheduled
delay), and the running total of bytes received.  The HTMLAudioElement and the
wall-clock timestamps are external resources and are represented by the
segment handed to the sink in the step results below.  AudioService
(src/services/audio/service.ts) keeps the same state inside an AudioState
object whose methods match these fields one for one. -/
structure ProcState where
  playbackState : AudioPlaybackState
  audioBuffer : List Chunk
  audioBufferSize : ℕ
  isStreamingComplete : Bool
  playbackRetryTimer : Option ℕ
  totalBytesReceived : ℕ
deriving DecidableEq, Repr

namespace PlaybackBuffer

/-- Initial state of a freshly constructed processor. -/
def initState : ProcState :=
  { playbackState := AudioPlaybackState.IDLE
    audioBuffer := []
    audioBufferSize := 0
    isStreamingComplete := false
    playbackRetryTimer := none
    totalBytesReceived := 0 }

/-- addToBuffer (input-processor.ts lines 64 to 68): push the chunk, grow the
byte count and the received total. -/
def addToBuffer (c : Chunk) (s : ProcState) : ProcState :=
  { s with
    audioBuffer := s.audioBuffer ++ [c]
    audioBufferSize := s.audioBufferSize + c.length
    totalBytesReceived := s.totalBytesReceived + c.length }

/-- clearBuffer (input-processor.ts lines 87 to 91): empties the chunk list,
zeroes the byte count and resets the streaming-complete flag. -/
def clearBuffer (s : ProcState) : ProcState :=
  { s with
    audioBuffer := []
    audioBufferSize := 0
    isStreamingComplete := false }

/-- isPlaying (input-processor.ts line 44). -/
def isPlaying (s : ProcState) : Bool :=
  s.playbackState = AudioPlaybackState.PLAYING

/-- The JS TypedArray.set call: overwrite dst starting at offset with src.
All calls of combineBuffers stay in bounds. -/
def jsSet (dst src : List ℕ) (offset : ℕ) : List ℕ :=
  dst.take offset ++ src ++ dst.drop (offset + src.length)

/-- combineBuffers (input-processor.ts lines 246 to 257): allocate a zeroed
array of the total length and copy each chunk at its running offset. -/
def combineBuffers (buffers : List Chunk) : Chunk :=
  let totalLength := buffers.foldl (fun sum b => sum + b.length) 0
  (buffers.foldl (fun acc b => (jsSet acc.1 b acc.2, acc.2 + b.length))
    (List.replicate totalLength 0, 0)).1

/-- The byte-count fold of combineBuffers computes the sum of the chunk lengths. -/
theorem foldl_length_eq (buffers : List Chunk) (a : ℕ) :
    buffers.foldl (fun sum b => sum + b.length) a
      = a + (buffers.map List.length).sum := by
  induction buffers generalizing a with
  | nil => simp
  | cons b rest ih =>
    simp only [List.foldl_cons, List.map_cons, List.sum_cons]
    rw [ih]
    omega

/-- Invariant of the copy loop of combineBuffers: writing the chunks one after
another into a zero-filled tail extends the prefix by their concatenation. -/
theorem combine_fold_eq (buffers : List Chunk) (pre : List ℕ) (k : ℕ)
    (hk : (buffers.map List.length).sum = k) :
    buffers.foldl (fun acc b => (jsSet acc.1 b acc.2, acc.2 + b.length))
      (pre ++ List.replicate k 0, pre.length)
    = (pre ++ buffers.flatten, pre.length + k) := by
  induction buffers generalizing pre k with
  | nil =>
    simp only [List.map_nil, List.sum_nil] at hk
    subst hk
    simp
  | cons b rest ih =>
    have hbk : b.length ≤ k := by
      simp only [List.map_cons, List.sum_cons] at hk
      omega
    have hrest : (rest.map List.length).sum = k - b.length := by
      simp only [List.map_cons, List.sum_cons] at hk
      omega
    simp only [List.foldl_cons]
    have hset : jsSet (pre ++ List.replicate k 0) b pre.length
        = (pre ++ b) ++ List.replicate (k - b.length) 0 := by
      unfold jsSet
      have htake : (pre ++ List.replicate k 0).take pre.length = pre := by
        simp [List.take_append]
      have hdrop : (pre ++ List.replicate k 0).drop (pre.length + b.length)
          = List.replicate (k - b.length) 0 := by
        rw [List.drop_append_eq_append_drop]
        simp [List.drop_replicate]
      rw [htake, hdrop]
    rw [hset]
    have hlen : pre.length + b.length = (pre ++ b).length := by simp
    rw [hlen, ih (pre ++ b) (k - b.length) hrest]
    simp only [List.flatten_cons, List.append_assoc, List.length_append]
    have : pre.length + b.length + (k - b.length) = pre.length + k := by omega
    rw [this]

/-- combineBuffers concatenates the chunks in order (input-processor.ts lines
246 to 257). -/
theorem combineBuffers_eq_flatten (buffers : List Chunk) :
    combineBuffers buffers = buffers.flatten := by
  unfold combineBuffers
  have h := combine_fold_eq buffers [] ((buffers.map List.length).sum) rfl
  simp only [List.nil_append, List.length_nil] at h
  simp only [foldl_length_eq, Nat.zero_add]
  rw [h]

/-- The combined segment has exactly the summed byte length. -/
theorem combineBuffers_length (buffers : List Chunk) :
    (combineBuffers buffers).length = (buffers.map List.length).sum := by
  rw [combineBuffers_eq_flatten]
  exact List.length_flatten buffers

/-- Buffering decision of attemptPlayback (input-processor.ts lines 190 to
195 and service.ts lines 98 to 103): pending bytes reach minSize, or pending
chunks reach minChunks, or the stream is complete with at least one pending
byte; both thresholds are multiplied by 0.75 while already playing. -/
def shouldStartPlayback (cfg : AudioConfig) (s : ProcState) : Bool :=
  let minSize : ℚ := if isPlaying s then cfg.minBufferSize * (3 / 4 : ℚ) else cfg.minBufferSize
  let minChunks : ℚ := if isPlaying s then cfg.targetChunks * (3 / 4 : ℚ) else cfg.targetChunks
  decide ((s.audioBufferSize : ℚ) ≥ minSize)
    || decide (((s.audioBuffer.length : ℕ) : ℚ) ≥ minChunks)
    || (s.isStreamingComplete && decide (0 < s.audioBufferSize))

end PlaybackBuffer

/-- Result of one playback-pipeline operation: the successor state, the
segment handed to the playback sink (if any), and whether resumeMicrophone
was invoked during the operation. -/
structure StepResult where
  state : ProcState
  played : Option Chunk
  resumeInvoked : Bool
deriving DecidableEq, Repr

namespace AudioInputProcessor

open PlaybackBuffer

/-- completePlayback (input-processor.ts lines 266 to 269): sets COMPLETED.
The resumeMicrophone call on line 268 is commented out in the source, so this
operation never invokes a resume. -/
def completePlayback (s : ProcState) : ProcState × Bool :=
  ({ s with playbackState := AudioPlaybackState.COMPLETED }, false)

/-- playNextSegment (input-processor.ts lines 206 to 244): cancel the retry
timer; with an empty buffer, complete when the stream is marked done and
otherwise do nothing; with a non-empty buffer, combine all pending chunks,
clear the buffer, and hand the combined segment to the sink while entering
PLAYING. -/
def playNextSegment (s : ProcState) : StepResult :=
  let s0 := { s with playbackRetryTimer := none }
  if s0.audioBuffer.isEmpty then
    if s0.isStreamingComplete then
      let r := completePlayback s0
      { state := r.1, played := none, resumeInvoked := r.2 }
    else
      { state := s0, played := none, resumeInvoked := false }
  else
    let combined := combineBuffers s0.audioBuffer
    let s1 := clearBuffer s0
    { state := { s1 with playbackState := AudioPlaybackState.PLAYING }
      played := some combined
      resumeInvoked := false }

/-- attemptPlayback (input-processor.ts lines 190 to 204): play when the
decision holds, otherwise schedule one retry after playbackRetryInterval if
none is pending. -/
def attemptPlayback (cfg : AudioConfig) (s : ProcState) : StepResult :=
  if shouldStartPlayback cfg s then
    playNextSegment s
  else if s.playbackRetryTimer.isNone then
    { state := { s with playbackRetryTimer := some cfg.playbackRetryInterval }
      played := none, resumeInvoked := false }
  else
    { state := s, played := none, resumeInvoked := false }

/-- handleIncomingAudioChunk (input-processor.ts lines 179 to 188): append the
chunk and run the buffering decision only when not playing. -/
def handleIncomingAudioChunk (cfg : AudioConfig) (c : Chunk) (s : ProcState) : StepResult :=
  let s1 := addToBuffer c s
  if isPlaying s1 then
    { state := s1, played := none, resumeInvoked := false }
  else
    attemptPlayback cfg s1

/-- setStreamComplete (input-processor.ts lines 259 to 265): mark the stream
complete, then play immediately when bytes are pending and nothing is playing. -/
def setStreamComplete (s : ProcState) : StepResult :=
  let s1 := { s with isStreamingComplete := true }
  if 0 < s1.audioBufferSize ∧ isPlaying s1 = false then
    playNextSegment s1
  else
    { state := s1, played := none, resumeInvoked := false }

/-- The onended handler of the sink (input-processor.ts lines 230 to 233):
re-enter playNextSegment. -/
def onSegmentEnded (s : ProcState) : StepResult :=
  playNextSegment s

/-- The onerror handler of the sink (input-processor.ts lines 235 to 237):
only the object URL is revoked; no state change and no further call. -/
def onSegmentError (s : ProcState) : StepResult :=
  { state := s, played := none, resumeInvoked := false }

/-- The retry timer callback (input-processor.ts lines 199 to 202): null the
timer, then re-run attemptPlayback.  It can only fire while scheduled. -/
def retryTimerFired (cfg : AudioConfig) (s : ProcState) : StepResult :=
  if s.playbackRetryTimer.isSome then
    attemptPlayback cfg { s with playbackRetryTimer := none }
  else
    { state := s, played := none, resumeInvoked := false }

/-- reset (input-processor.ts lines 146 to 159) restricted to the playback
fields: cancel the retry timer, return to IDLE with an empty buffer.  The
cumulative totalBytesReceived counter is not cleared by the source. -/
def resetState (s : ProcState) : ProcState :=
  { playbackState := AudioPlaybackState.IDLE
    audioBuffer := []
    audioBufferSize := 0
    isStreamingComplete := false
    playbackRetryTimer := none
    totalBytesReceived := s.totalBytesReceived }

/-- resetPlayback (input-processor.ts lines 161 to 172): same effect as reset
on the playback fields. -/
def resetPlaybackState (s : ProcState) : ProcState :=
  resetState s

/-- External events driving the processor. -/
inductive ProcEvent where
  | chunkArrival (c : Chunk)
  | segmentEnded
  | segmentError
  | retryFired
  | streamDone
  | resetCalled
  | resetPlaybackCalled
deriving DecidableEq, Repr

/-- One step of the AudioInputProcessor machine. -/
def procStep (cfg : AudioConfig) (s : ProcState) : ProcEvent → StepResult
  | ProcEvent.chunkArrival c => handleIncomingAudioChunk cfg c s
  | ProcEvent.segmentEnded => onSegmentEnded s
  | ProcEvent.segmentError => onSegmentError s
  | ProcEvent.retryFired => retryTimerFired cfg s
  | ProcEvent.streamDone => setStreamComplete s
  | ProcEvent.resetCalled =>
      { state := resetState s, played := none, resumeInvoked := false }
  | ProcEvent.resetPlaybackCalled =>
      { state := resetPlaybackState s, played := none, resumeInvoked := false }

/-- Number of resumeMicrophone invocations along a run of the processor. -/
def resumeCountRun (cfg : AudioConfig) (s : ProcState) : List ProcEvent → ℕ
  | [] => 0
  | e :: es =>
    let r := procStep cfg s e
    (if r.resumeInvoked then 1 else 0) + resumeCountRun cfg r.state es

end AudioInputProcessor

namespace AudioServiceModel

open PlaybackBuffer

/-- completePlayback of AudioService (service.ts lines 176 to 179): sets
COMPLETED and then awaits this.resumeMicrophone(), so the operation does
invoke a resume.  This is the playback implementation ModoVoiceClient.ts
imports (from services/audio/service). -/
def completePlayback (s : ProcState) : ProcState × Bool :=
  ({ s with playbackState := AudioPlaybackState.COMPLETED }, true)

/-- playNextSegment of AudioService (service.ts lines 115 to 153); identical
to the AudioInputProcessor version except that its completePlayback invokes
resumeMicrophone.  The buffer operations go through an AudioState object whose
methods match the AudioInputProcessor fields one for one. -/
def playNextSegment (s : ProcState) : StepResult :=
  let s0 := { s with playbackRetryTimer := none }
  if s0.audioBuffer.isEmpty then
    if s0.isStreamingComplete then
      let r := completePlayback s0
      { state := r.1, played := none, resumeInvoked := r.2 }
    else
      { state := s0, played := none, resumeInvoked := false }
  else
    let combined := combineBuffers s0.audioBuffer
    let s1 := clearBuffer s0
    { state := { s1 with playbackState := AudioPlaybackState.PLAYING }
      played := some combined
      resumeInvoked := false }

/-- attemptPlayback of AudioService (service.ts lines 98 to 113), with the
same decision formula as the AudioInputProcessor version. -/
def attemptPlayback (cfg : AudioConfig) (s : ProcState) : StepResult :=
  if shouldStartPlayback cfg s then
    playNextSegment s
  else if s.playbackRetryTimer.isNone then
    { state := { s with playbackRetryTimer := some cfg.playbackRetryInterval }
      played := none, resumeInvoked := false }
  else
    { state := s, played := none, resumeInvoked := false }

/-- handleIncomingAudioChunk of AudioService (service.ts lines 86 to 96). -/
def handleIncomingAudioChunk (cfg : AudioConfig) (c : Chunk) (s : ProcState) : StepResult :=
  let s1 := addToBuffer c s
  if isPlaying s1 then
    { state := s1, played := none, resumeInvoked := false }
  else
    attemptPlayback cfg s1

/-- setStreamComplete of AudioService (service.ts lines 168 to 174). -/
def setStreamComplete (s : ProcState) : StepResult :=
  let s1 := { s with isStreamingComplete := true }
  if 0 < s1.audioBufferSize ∧ isPlaying s1 = false then
    playNextSegment s1
  else
    { state := s1, played := none, resumeInvoked := false }

/-- Events of the AudioService playback pipeline relevant to turn handling:
inbound chunks, sink completions and the server stream-complete signal.  There
is deliberately no turn-change event: turn changes reach resumeMicrophone only
through a separate ModoVoiceClient listener. -/
inductive ServiceEvent where
  | chunkArrival (c : Chunk)
  | segmentEnded
  | streamDone
deriving DecidableEq, Repr

/-- One step of the AudioService playback machine. -/
def serviceStep (cfg : AudioConfig) (s : ProcState) : ServiceEvent → StepResult
  | ServiceEvent.chunkArrival c => handleIncomingAudioChunk cfg c s
  | ServiceEvent.segmentEnded => playNextSegment s
  | ServiceEvent.streamDone => setStreamComplete s

/-- Number of resumeMicrophone invocations along a run of the AudioService
playback machine. -/
def resumeCountRun (cfg : AudioConfig) (s : ProcState) : List ServiceEvent → ℕ
  | [] => 0
  | e :: es =>
    let r := serviceStep cfg s e
    (if r.resumeInvoked then 1 else 0) + resumeCountRun cfg r.state es

end AudioServiceModel

/-- Callback kinds scheduled by AudioService.resumeMicrophone (service.ts
lines 187 to 211 and the identical src/services/AudioService.ts lines 265 to
289).  resumeMsg is the debounced callback that posts a resume message and
nulls micResumeTimeout; failsafeMsg is the failsafe callback that posts a
resume message; cancelFailsafe is the callback of the third setTimeout, which
clears the failsafe timer with the captured id. -/
inductive TimerAction where
  | resumeMsg
  | failsafeMsg
  | cancelFailsafe (fid : ℕ)
deriving DecidableEq, Repr

/-- A scheduled timeout: creation-ordered id, absolute fire time, callback. -/
structure GateTimer where
  id : ℕ
  fireAt : ℕ
  action : TimerAction
deriving DecidableEq, Repr

/-- Microphone gate world: paused is the gating flag held by the audio
worklet (set by the pause and resume port messages), timers the pending
timeouts in creation order, micResumeTimeout the id held by the field of the
same name (none when null), nextId a fresh-id counter. -/
structure GateState where
  paused : Bool
  timers : List GateTimer
  micResumeTimeout : Option ℕ
  nextId : ℕ
deriving DecidableEq, Repr

namespace MicrophoneGate

/-- Initial gate state: not paused, no timers. -/
def initGate : GateState :=
  { paused := false, timers := [], micResumeTimeout := none, nextId := 0 }

/-- clearTimeout: drop the timeout with the given id (a no-op when it already
fired or was cleared). -/
def clearTimeoutId (i : ℕ) (timers : List GateTimer) : List GateTimer :=
  timers.filter (fun t => t.id != i)

/-- pauseMicrophone (service.ts lines 181 to 185): posts a pause message to
the worklet, which stops transmission immediately. -/
def pauseMicrophone (s : GateState) : GateState :=
  { s with paused := true }

/-- resumeMicrophone (service.ts lines 187 to 211), called at time now with
resumeDelay d and failsafeResumeTimeout f.  Step by step from the source:
clear the timeout currently stored in micResumeTimeout if any; store a new
resumeDelay timeout posting resume in micResumeTimeout; create a failsafe
timeout of length f; since micResumeTimeout is non-null at this point, the
final if is always taken: it overwrites micResumeTimeout with yet another
resumeDelay timeout that clears the failsafe (the local originalTimeout
binding of the source is captured but never used, so the timeout created
second remains scheduled and is no longer reachable from micResumeTimeout). -/
def resumeMicrophone (d f now : ℕ) (s : GateState) : GateState :=
  let s1 :=
    match s.micResumeTimeout with
    | some i => { s with timers := clearTimeoutId i s.timers }
    | none => s
  let t1 : GateTimer := { id := s1.nextId, fireAt := now + d, action := TimerAction.resumeMsg }
  let s2 := { s1 with
    timers := s1.timers ++ [t1]
    micResumeTimeout := some t1.id
    nextId := s1.nextId + 1 }
  let tf : GateTimer := { id := s2.nextId, fireAt := now + f, action := TimerAction.failsafeMsg }
  let s3 := { s2 with timers := s2.timers ++ [tf], nextId := s2.nextId + 1 }
  let t2 : GateTimer := { id := s3.nextId, fireAt := now + d, action := TimerAction.cancelFailsafe tf.id }
  { s3 with
    timers := s3.timers ++ [t2]
    micResumeTimeout := some t2.id
    nextId := s3.nextId + 1 }

/-- The first statement of resumeMicrophone in isolation: clear the timeout
stored in micResumeTimeout if any (the stored id itself is not nulled by the
clear). -/
def clearCurrent (s : GateState) : GateState :=
  match s.micResumeTimeout with
  | some i => { s with timers := clearTimeoutId i s.timers }
  | none => s

/-- Effect of a fired callback. -/
def runAction (s : GateState) : TimerAction → GateState
  | TimerAction.resumeMsg => { s with paused := false, micResumeTimeout := none }
  | TimerAction.failsafeMsg => { s with paused := false }
  | TimerAction.cancelFailsafe fid => { s with timers := clearTimeoutId fid s.timers }

/-- External calls into the gate. -/
inductive GateCall where
  | pauseCall
  | resumeCall
deriving DecidableEq, Repr

/-- Dispatch one external call arriving at time now. -/
def doCall (d f now : ℕ) (s : GateState) : GateCall → GateState
  | GateCall.pauseCall => pauseMicrophone s
  | GateCall.resumeCall => resumeMicrophone d f now s

/-- The due timeout that fires next at time now: smallest id among the
pending timeouts with fireAt at or before now (timeouts with equal deadlines
run in creation order). -/
def dueMin (timers : List GateTimer) (now : ℕ) : Option GateTimer :=
  match timers with
  | [] => none
  | t :: rest =>
    match dueMin rest now with
    | none => if t.fireAt ≤ now then some t else none
    | some b => if t.fireAt ≤ now ∧ t.id < b.id then some t else some b

/-- Fire every due timeout, in id order, removing each from the queue before
running its callback; fuel bounds the iteration count by the queue length. -/
def fireDueAux : ℕ → GateState → ℕ → GateState
  | 0, s, _ => s
  | fuel + 1, s, now =>
    match dueMin s.timers now with
    | none => s
    | some t =>
      fireDueAux fuel (runAction { s with timers := clearTimeoutId t.id s.timers } t.action) now

/-- Fire all timeouts due at time now. -/
def fireDue (s : GateState) (now : ℕ) : GateState :=
  fireDueAux s.timers.length s now

/-- One millisecond of gate execution: run the external calls scheduled for
this time in order, then fire the due timeouts. -/
def gateStep (d f : ℕ) (sched : ℕ → List GateCall) (now : ℕ) (s : GateState) : GateState :=
  fireDue ((sched now).foldl (doCall d f now) s) now

/-- State of the gate after executing every time from 0 through n. -/
def gateRun (d f : ℕ) (sched : ℕ → List GateCall) : ℕ → GateState
  | 0 => gateStep d f sched 0 initGate
  | n + 1 => gateStep d f sched (n + 1) (gateRun d f sched n)

/-- Number of pending debounced-resume timeouts. -/
def pendingResumeTimers (s : GateState) : ℕ :=
  (s.timers.filter (fun t => t.action = TimerAction.resumeMsg)).length

/-- Number of pending failsafe timeouts. -/
def pendingFailsafeTimers (s : GateState) : ℕ :=
  (s.timers.filter (fun t => t.action = TimerAction.failsafeMsg)).length

end MicrophoneGate

/-- Connection lifecycle states (src/services/web-socket/websocket.ts lines 1
to 7). -/
inductive ConnState where
  | Disconnected
  | Connecting
  | Connected
  | Disconnecting
  | Error
deriving DecidableEq, Repr

namespace Reconnect

/-- Modelled from the spec: the reconnection configuration of the Connection
Session.  The implementation file services/web-socket/service.ts (the
WebSocketService imported by ModoVoiceClient.ts) is not under src/; src only
declares the WebSocketConfig interface (websocket.ts lines 15 to 24) and the
default values reconnectDelay 1000, reconnectBackoffMultiplier 1.5,
maxReconnectDelay 30000, maxReconnectAttempts 5.  Delays are rationals. -/
structure ReconnectConfig where
  reconnectDelay : ℚ
  backoffMultiplier : ℚ
  maxReconnectDelay : ℚ
  maxReconnectAttempts : ℕ
deriving DecidableEq, Repr

/-- Modelled from the spec: delay before reconnect attempt n, namely
min(reconnectDelay times backoffMultiplier to the n, maxReconnectDelay). -/
def reconnectDelayFor (cfg : ReconnectConfig) (n : ℕ) : ℚ :=
  min (cfg.reconnectDelay * cfg.backoffMultiplier ^ n) cfg.maxReconnectDelay

/-- Session state relevant to the reconnection policy. -/
structure SessionState where
  connState : ConnState
  reconnectAttempts : ℕ
deriving DecidableEq, Repr

/-- Outcome of handling an unexpected closure: either a retry is scheduled
after the computed delay, or the attempts are exhausted and a
ReconnectExhausted error is raised with no further automatic retry. -/
inductive CloseOutcome where
  | retryAfter (delay : ℚ)
  | reconnectExhausted
deriving DecidableEq, Repr

/-- Modelled from the spec: on unexpected transport closure, if
reconnectAttempts is below maxReconnectAttempts, compute the backoff delay
from the current attempt count, increment the count and retry; otherwise
transition to Error and raise ReconnectExhausted. -/
def onUnexpectedClose (cfg : ReconnectConfig) (s : SessionState) : SessionState × CloseOutcome :=
  if s.reconnectAttempts < cfg.maxReconnectAttempts then
    ({ connState := ConnState.Connecting, reconnectAttempts := s.reconnectAttempts + 1 },
      CloseOutcome.retryAfter (reconnectDelayFor cfg s.reconnectAttempts))
  else
    ({ s with connState := ConnState.Error }, CloseOutcome.reconnectExhausted)

/-- State after n consecutive failed reconnect cycles (each retry fails and
closes again). -/
def afterFailures (cfg : ReconnectConfig) (s : SessionState) : ℕ → SessionState
  | 0 => s
  | n + 1 => (onUnexpectedClose cfg (afterFailures cfg s n)).1

end Reconnect

/-- Event kinds emitted through the client event bus that the idempotence
claim observes. -/
inductive ClientEventKind where
  | connectedEv
  | disconnectedEv
deriving DecidableEq, Repr

/-- Connection metrics (websocket.ts lines 59 to 68), counters only. -/
structure ClientMetrics where
  reconnectAttempts : ℕ
  bytesSent : ℕ
  bytesReceived : ℕ
  messagesSent : ℕ
  messagesReceived : ℕ
deriving DecidableEq, Repr

/-- Observable state of a ModoVoiceClient: the shared ConnectionState flag
consulted by the guards of connect and disconnect (ModoVoiceClient.ts lines
101 to 141), the connection metrics, the initialized flag, and the log of
emitted lifecycle events. -/
structure ClientState where
  connected : Bool
  metrics : ClientMetrics
  initialized : Bool
  events : List ClientEventKind
deriving DecidableEq, Repr

namespace ClientModel

/-- Modelled from the spec: WebSocketService.connect (services/web-socket/
service.ts, not under src/) opens the transport, transitions the shared
ConnectionState to Connected, resets reconnectAttempts to 0 and emits one
connected event; byte and message counters persist. -/
def wsConnect (s : ClientState) : ClientState :=
  { s with
    connected := true
    metrics := { s.metrics with reconnectAttempts := 0 }
    events := s.events ++ [ClientEventKind.connectedEv] }

/-- Modelled from the spec: WebSocketService.disconnect (not under src/)
closes the transport, transitions the shared ConnectionState to Disconnected
and emits one disconnected event. -/
def wsDisconnect (s : ClientState) : ClientState :=
  { s with
    connected := false
    events := s.events ++ [ClientEventKind.disconnectedEv] }

/-- ModoVoiceClient.connect (ModoVoiceClient.ts lines 101 to 120): when the
connection state is already connected, log a warning and return without any
other action; otherwise initialize audio, set the initialized flag and
connect the socket. -/
def clientConnect (s : ClientState) : ClientState :=
  if s.connected then s
  else wsConnect { s with initialized := true }

/-- ModoVoiceClient.disconnect (ModoVoiceClient.ts lines 122 to 141): when
not connected, log a warning and return without any other action; otherwise
disconnect the socket, clean up audio and clear the initialized flag. -/
def clientDisconnect (s : ClientState) : ClientState :=
  if s.connected then { wsDisconnect s with initialized := false }
  else s

/-- Occurrences of one event kind in the emitted log. -/
def eventCount (k : ClientEventKind) (s : ClientState) : ℕ :=
  (s.events.filter (fun e => e = k)).length

end ClientModel

/-- The start condition exactly as the specification words it: total pending
bytes at least minBufferSize, or pending chunk count at least targetChunks,
or the stream marked complete with at least one pending byte, with both
thresholds replaced by 75 percent of their nominal values whenever the state
is already Playing.  Stated independently of shouldStartPlayback so the two
can be compared. -/
def specStartCondition (cfg : AudioConfig) (s : ProcState) : Prop :=
  ((s.audioBufferSize : ℚ) ≥
      (if s.playbackState = AudioPlaybackState.PLAYING
        then (3 / 4 : ℚ) * cfg.minBufferSize else cfg.minBufferSize))
  ∨ (((s.audioBuffer.length : ℕ) : ℚ) ≥
      (if s.playbackState = AudioPlaybackState.PLAYING
        then (3 / 4 : ℚ) * cfg.targetChunks else cfg.targetChunks))
  ∨ (s.isStreamingComplete = true ∧ 0 < s.audioBufferSize)

section ClaimOne

open PlaybackBuffer AudioInputProcessor

/-- Claim C1: the buffering decision of attemptPlayback starts (or continues)
playback exactly when pending bytes reach minBufferSize, or pending chunks
reach targetChunks, or the stream is complete with at least one pending byte,
the two thresholds being relaxed to 75 percent of nominal while the state is
already Playing; when no disjunct holds and no retry timer is pending, one
retry is scheduled after playbackRetryInterval, and when a retry is already
pending nothing changes. -/
theorem C1_buffering_decision (cfg : AudioConfig) (s : ProcState) :
    (shouldStartPlayback cfg s = true ↔ specStartCondition cfg s)
    ∧ (shouldStartPlayback cfg s = true →
        attemptPlayback cfg s = playNextSegment s)
    ∧ (shouldStartPlayback cfg s = false → s.playbackRetryTimer = none →
        attemptPlayback cfg s =
          { state := { s with playbackRetryTimer := some cfg.playbackRetryInterval }
            played := none, resumeInvoked := false })
    ∧ (shouldStartPlayback cfg s = false → s.playbackRetryTimer ≠ none →
        attemptPlayback cfg s = { state := s, played := none, resumeInvoked := false }) := by
  refine ⟨?_, ?_, ?_, ?_⟩
  · by_cases hpl : s.playbackState = AudioPlaybackState.PLAYING
    · simp [shouldStartPlayback, specStartCondition, isPlaying, hpl, mul_comm,
        Bool.or_eq_true, decide_eq_true_eq, Bool.and_eq_true, ge_iff_le, or_assoc]
    · simp [shouldStartPlayback, specStartCondition, isPlaying, hpl,
        Bool.or_eq_true, decide_eq_true_eq, Bool.and_eq_true, ge_iff_le, or_assoc]
  · intro h
    simp [attemptPlayback, h]
  · intro h hnone
    simp [attemptPlayback, h, hnone]
  · intro h hsome
    have : s.playbackRetryTimer.isNone = false := by
      cases htimer : s.playbackRetryTimer <;> simp_all
    simp [attemptPlayback, h, this]

/-- Witness for C1 at a concrete input: 12 pending bytes against
minBufferSize 10 while idle starts playback. -/
theorem C1_buffering_decision_witness :
    shouldStartPlayback { minBufferSize := 10, targetChunks := 20, playbackRetryInterval := 7 }
        { PlaybackBuffer.initState with
            audioBuffer := [[1, 2, 3], List.replicate 9 0]
            audioBufferSize := 12 } = true
    ∧ attemptPlayback { minBufferSize := 10, targetChunks := 20, playbackRetryInterval := 7 }
        { PlaybackBuffer.initState with
            audioBuffer := [[1, 2, 3], List.replicate 9 0]
            audioBufferSize := 12 }
      = playNextSegment
        { PlaybackBuffer.initState with
            audioBuffer := [[1, 2, 3], List.replicate 9 0]
            audioBufferSize := 12 } :=
  ⟨by decide,
    (C1_buffering_decision
      { minBufferSize := 10, targetChunks := 20, playbackRetryInterval := 7 }
      { PlaybackBuffer.initState with
          audioBuffer := [[1, 2, 3], List.replicate 9 0]
          audioBufferSize := 12 }).2.1 (by decide)⟩

end ClaimOne

section ClaimTwo

open PlaybackBuffer AudioInputProcessor

/-- Claim C2: starting segment playback on a non-empty pending sequence
consumes it whole: the played segment is the concatenation of all pending
chunks in arrival order, its byte length is the sum of the chunk lengths, and
the successor state carries an empty pending sequence with byte count 0 at
the moment the segment is handed to the sink. -/
theorem C2_atomic_consumption (s : ProcState) (h : s.audioBuffer ≠ []) :
    (playNextSegment s).played = some s.audioBuffer.flatten
    ∧ s.audioBuffer.flatten.length = (s.audioBuffer.map List.length).sum
    ∧ (playNextSegment s).state.audioBuffer = []
    ∧ (playNextSegment s).state.audioBufferSize = 0
    ∧ (playNextSegment s).state.playbackState = AudioPlaybackState.PLAYING := by
  have hne : s.audioBuffer.isEmpty = false := by
    simpa [List.isEmpty_iff] using h
  refine ⟨?_, List.length_flatten s.audioBuffer, ?_, ?_, ?_⟩ <;>
    simp [playNextSegment, hne, clearBuffer, combineBuffers_eq_flatten]

/-- Witness for C2: two concrete chunks are consumed as one ordered segment. -/
theorem C2_atomic_consumption_witness :
    (playNextSegment
        { PlaybackBuffer.initState with
            audioBuffer := [[1, 2], [3]], audioBufferSize := 3 }).played = some [1, 2, 3]
    ∧ (playNextSegment
        { PlaybackBuffer.initState with
            audioBuffer := [[1, 2], [3]], audioBufferSize := 3 }).state.audioBuffer = [] := by
  have h := C2_atomic_consumption
    { PlaybackBuffer.initState with audioBuffer := [[1, 2], [3]], audioBufferSize := 3 }
    (by decide)
  exact ⟨h.1, h.2.2.1⟩

end ClaimTwo

section ClaimSix

open PlaybackBuffer AudioInputProcessor

/-- Counterexample to claim C6: with nothing pending, markStreamComplete does
not transition the playback state to Completed.  From the initial state (no
bytes pending, Idle), setStreamComplete sets the flag but leaves the playback
state Idle. -/
theorem C6_no_completion_counterexample :
    (setStreamComplete PlaybackBuffer.initState).state.audioBufferSize = 0
    ∧ (setStreamComplete PlaybackBuffer.initState).state.isStreamingComplete = true
    ∧ (setStreamComplete PlaybackBuffer.initState).state.playbackState
        = AudioPlaybackState.IDLE := by
  decide

/-- Claim C6 as amended: markStreamComplete first sets the streamComplete
flag; if the state is not Playing and at least one byte is pending it
immediately starts segment playback (whose buffer clear then resets the
flag); if no bytes are pending it changes nothing else — in particular it
does not transition the playback state to Completed. -/
theorem C6_markStreamComplete_amended (s : ProcState) :
    (s.audioBufferSize = 0 ∨ isPlaying s = true →
        (setStreamComplete s).state.isStreamingComplete = true)
    ∧ (isPlaying s = false → 0 < s.audioBufferSize →
        setStreamComplete s = playNextSegment { s with isStreamingComplete := true })
    ∧ (s.audioBufferSize = 0 →
        setStreamComplete s =
          { state := { s with isStreamingComplete := true }
            played := none, resumeInvoked := false }) := by
  refine ⟨?_, ?_, ?_⟩
  · intro h
    rcases h with h | h
    · simp [setStreamComplete, h]
    · simp [setStreamComplete, isPlaying] at h ⊢
      simp [h]
  · intro hnp hpos
    simp [setStreamComplete, isPlaying] at hnp ⊢
    simp [hnp, hpos]
  · intro h
    simp [setStreamComplete, h]

/-- Witness for C6 as amended: with one pending byte while idle, the call
plays immediately; with nothing pending the state only gains the flag. -/
theorem C6_markStreamComplete_amended_witness :
    setStreamComplete
        { PlaybackBuffer.initState with audioBuffer := [[5]], audioBufferSize := 1 }
      = playNextSegment
        { PlaybackBuffer.initState with
            audioBuffer := [[5]], audioBufferSize := 1, isStreamingComplete := true }
    ∧ setStreamComplete PlaybackBuffer.initState =
        { state := { PlaybackBuffer.initState with isStreamingComplete := true }
          played := none, resumeInvoked := false } :=
  ⟨(C6_markStreamComplete_amended
      { PlaybackBuffer.initState with audioBuffer := [[5]], audioBufferSize := 1 }).2.1
      (by decide) (by decide),
    (C6_markStreamComplete_amended PlaybackBuffer.initState).2.2 (by decide)⟩

end ClaimSix

section ClaimSeven

open PlaybackBuffer AudioInputProcessor

/-- A state in which a segment is playing while a fresh chunk is already
pending, as after a handoff followed by one arrival. -/
def erroredPlayingState : ProcState :=
  { playbackState := AudioPlaybackState.PLAYING
    audioBuffer := [[7, 8, 9]]
    audioBufferSize := 3
    isStreamingComplete := false
    playbackRetryTimer := none
    totalBytesReceived := 6 }

/-- Counterexample to claim C7: on a sink-reported error the decision logic
does not run.  In a state with a pending chunk, the onended handler hands the
next segment to the sink, while the onerror handler hands nothing and leaves
the state unchanged, still Playing. -/
theorem C7_error_stalls_counterexample :
    (onSegmentError erroredPlayingState).played = none
    ∧ (onSegmentError erroredPlayingState).state = erroredPlayingState
    ∧ (onSegmentEnded erroredPlayingState).played = some [7, 8, 9] := by
  decide

/-- Claim C7 as amended: on a sink-reported playback error the segment is
discarded without retry — its bytes, removed from the pending sequence at
handoff, are never re-appended — but the completion decision logic does not
run: the onerror handler only revokes the object URL, hands nothing to the
sink and leaves the state unchanged (still Playing), so no next segment is
started by the error path. -/
theorem C7_error_handling_amended (s : ProcState) (h : s.audioBuffer ≠ []) :
    onSegmentError (playNextSegment s).state
      = { state := (playNextSegment s).state, played := none, resumeInvoked := false }
    ∧ (onSegmentError (playNextSegment s).state).state.audioBuffer = []
    ∧ (onSegmentError (playNextSegment s).state).state.playbackState
        = AudioPlaybackState.PLAYING := by
  have hne : s.audioBuffer.isEmpty = false := by
    simpa [List.isEmpty_iff] using h
  refine ⟨rfl, ?_, ?_⟩ <;> simp [playNextSegment, onSegmentError, hne, clearBuffer]

/-- Witness for C7 as amended at a concrete handoff. -/
theorem C7_error_handling_amended_witness :
    (onSegmentError
        (playNextSegment
          { PlaybackBuffer.initState with audioBuffer := [[4]], audioBufferSize := 1 }).state).state
      = (playNextSegment
          { PlaybackBuffer.initState with audioBuffer := [[4]], audioBufferSize := 1 }).state
    ∧ (onSegmentError
        (playNextSegment
          { PlaybackBuffer.initState with audioBuffer := [[4]], audioBufferSize := 1 }).state).state.audioBuffer
      = [] := by
  have h := C7_error_handling_amended
    { PlaybackBuffer.initState with audioBuffer := [[4]], audioBufferSize := 1 } (by decide)
  refine ⟨?_, h.2.1⟩
  rw [h.1]

end ClaimSeven

section ClaimTen

open PlaybackBuffer AudioInputProcessor

/-- Claim C10: once Playing, the playback state never returns to Idle except
through reset or resetPlayback; a segment that finishes with an empty pending
sequence and the streamComplete flag unset leaves the state Playing; and
while Playing, an arriving chunk is only appended to the buffer — the
buffering decision, guarded by the not-playing check, is not invoked. -/
theorem C10_playing_never_idle (cfg : AudioConfig) (s : ProcState)
    (hp : s.playbackState = AudioPlaybackState.PLAYING) :
    (∀ e, e ≠ ProcEvent.resetCalled → e ≠ ProcEvent.resetPlaybackCalled →
        (procStep cfg s e).state.playbackState ≠ AudioPlaybackState.IDLE)
    ∧ (s.audioBuffer = [] → s.isStreamingComplete = false →
        (procStep cfg s ProcEvent.segmentEnded).state.playbackState
          = AudioPlaybackState.PLAYING)
    ∧ (∀ c, procStep cfg s (ProcEvent.chunkArrival c)
        = { state := addToBuffer c s, played := none, resumeInvoked := false }) := by
  have hplay : ∀ u : ProcState, u.playbackState = AudioPlaybackState.PLAYING →
      (playNextSegment u).state.playbackState ≠ AudioPlaybackState.IDLE := by
    intro u hu
    by_cases he : u.audioBuffer.isEmpty <;>
      by_cases hc : u.isStreamingComplete <;>
        simp [playNextSegment, completePlayback, clearBuffer, he, hc, hu]
  have hattempt : ∀ u : ProcState, u.playbackState = AudioPlaybackState.PLAYING →
      (attemptPlayback cfg u).state.playbackState ≠ AudioPlaybackState.IDLE := by
    intro u hu
    by_cases hs : shouldStartPlayback cfg u
    · simpa [attemptPlayback, hs] using hplay u hu
    · by_cases ht : u.playbackRetryTimer.isNone <;> simp [attemptPlayback, hs, ht, hu]
  refine ⟨?_, ?_, ?_⟩
  · intro e hr hrp
    cases e with
    | chunkArrival c =>
        simp [procStep, handleIncomingAudioChunk, addToBuffer, isPlaying, hp]
    | segmentEnded => exact hplay s hp
    | segmentError => simp [procStep, onSegmentError, hp]
    | retryFired =>
        by_cases ht : s.playbackRetryTimer.isSome
        · simpa [procStep, retryTimerFired, ht] using
            hattempt { s with playbackRetryTimer := none } hp
        · simp [procStep, retryTimerFired, ht, hp]
    | streamDone =>
        simp [procStep, setStreamComplete, isPlaying, hp]
    | resetCalled => exact absurd rfl hr
    | resetPlaybackCalled => exact absurd rfl hrp
  · intro hb hf
    simp [procStep, onSegmentEnded, playNextSegment, hb, hf, hp]
  · intro c
    simp [procStep, handleIncomingAudioChunk, addToBuffer, isPlaying, hp]

/-- Witness for C10 at a concrete playing state with an arriving chunk and a
finishing segment. -/
theorem C10_playing_never_idle_witness :
    (procStep { minBufferSize := 10, targetChunks := 20, playbackRetryInterval := 7 }
        { PlaybackBuffer.initState with playbackState := AudioPlaybackState.PLAYING }
        ProcEvent.segmentEnded).state.playbackState = AudioPlaybackState.PLAYING
    ∧ procStep { minBufferSize := 10, targetChunks := 20, playbackRetryInterval := 7 }
        { PlaybackBuffer.initState with playbackState := AudioPlaybackState.PLAYING }
        (ProcEvent.chunkArrival [6])
      = { state := addToBuffer [6]
            { PlaybackBuffer.initState with playbackState := AudioPlaybackState.PLAYING }
          played := none, resumeInvoked := false } := by
  have h := C10_playing_never_idle
    { minBufferSize := 10, targetChunks := 20, playbackRetryInterval := 7 }
    { PlaybackBuffer.initState with playbackState := AudioPlaybackState.PLAYING }
    (by decide)
  exact ⟨h.2.1 (by decide) (by decide), h.2.2 [6]⟩

end ClaimTen

section ClaimFive

open PlaybackBuffer

/-- Final state of a run of the AudioService playback machine. -/
def serviceRunState (cfg : AudioConfig) (s : ProcState) :
    List AudioServiceModel.ServiceEvent → ProcState
  | [] => s
  | e :: es => serviceRunState cfg (AudioServiceModel.serviceStep cfg s e).state es

/-- An execution of the AudioService playback machine with no turn-change in
it: one sufficient chunk, the stream-complete signal, then the sink
completion. -/
def c5events : List AudioServiceModel.ServiceEvent :=
  [AudioServiceModel.ServiceEvent.chunkArrival (List.replicate 12 1),
    AudioServiceModel.ServiceEvent.streamDone,
    AudioServiceModel.ServiceEvent.segmentEnded]

/-- Counterexample to claim C5: in the AudioService that ModoVoiceClient uses
(service.ts), an execution containing no turn-change message reaches the
Completed state and that completion does invoke resumeMicrophone — the run
below performs exactly one resume invocation, at the completing step. -/
theorem C5_completion_resumes_counterexample :
    (serviceRunState { minBufferSize := 10, targetChunks := 20, playbackRetryInterval := 7 }
        PlaybackBuffer.initState c5events).playbackState = AudioPlaybackState.COMPLETED
    ∧ AudioServiceModel.resumeCountRun
        { minBufferSize := 10, targetChunks := 20, playbackRetryInterval := 7 }
        PlaybackBuffer.initState c5events = 1 := by
  decide

/-- Claim C5 as amended: reaching Completed invokes no resume in
AudioInputProcessor (input-processor.ts, where the resumeMicrophone call is
commented out) — no execution of that machine ever requests a resume — but in
the AudioService of service.ts, the implementation ModoVoiceClient imports,
completePlayback does await resumeMicrophone, so every transition of
playNextSegment into Completed requests a resume even when no user
turn-change message has arrived. -/
theorem C5_completion_resume_amended (cfg : AudioConfig) (s : ProcState) :
    (∀ es, AudioInputProcessor.resumeCountRun cfg s es = 0)
    ∧ (s.audioBuffer = [] → s.isStreamingComplete = true →
        (AudioServiceModel.playNextSegment s).resumeInvoked = true
        ∧ (AudioServiceModel.playNextSegment s).state.playbackState
            = AudioPlaybackState.COMPLETED) := by
  constructor
  · have hstep : ∀ (u : ProcState) (e : AudioInputProcessor.ProcEvent),
        (AudioInputProcessor.procStep cfg u e).resumeInvoked = false := by
      intro u e
      have hplay : ∀ v : ProcState,
          (AudioInputProcessor.playNextSegment v).resumeInvoked = false := by
        intro v
        by_cases he : v.audioBuffer.isEmpty <;>
          by_cases hc : v.isStreamingComplete <;>
            simp [AudioInputProcessor.playNextSegment,
              AudioInputProcessor.completePlayback, he, hc]
      have hattempt : ∀ v : ProcState,
          (AudioInputProcessor.attemptPlayback cfg v).resumeInvoked = false := by
        intro v
        by_cases hs : shouldStartPlayback cfg v
        · simpa [AudioInputProcessor.attemptPlayback, hs] using hplay v
        · by_cases ht : v.playbackRetryTimer.isNone <;>
            simp [AudioInputProcessor.attemptPlayback, hs, ht]
      cases e with
      | chunkArrival c =>
          by_cases hpl : isPlaying (addToBuffer c u)
          · simp [AudioInputProcessor.procStep,
              AudioInputProcessor.handleIncomingAudioChunk, hpl]
          · simpa [AudioInputProcessor.procStep,
              AudioInputProcessor.handleIncomingAudioChunk, hpl] using
              hattempt (addToBuffer c u)
      | segmentEnded =>
          exact hplay u
      | segmentError => rfl
      | retryFired =>
          by_cases ht : u.playbackRetryTimer.isSome
          · simpa [AudioInputProcessor.procStep,
              AudioInputProcessor.retryTimerFired, ht] using
              hattempt { u with playbackRetryTimer := none }
          · simp [AudioInputProcessor.procStep, AudioInputProcessor.retryTimerFired, ht]
      | streamDone =>
          by_cases hc : 0 < u.audioBufferSize ∧ isPlaying { u with isStreamingComplete := true } = false
          · simpa [AudioInputProcessor.procStep,
              AudioInputProcessor.setStreamComplete, hc] using
              hplay { u with isStreamingComplete := true }
          · simp [AudioInputProcessor.procStep, AudioInputProcessor.setStreamComplete, hc]
      | resetCalled => rfl
      | resetPlaybackCalled => rfl
    intro es
    induction es generalizing s with
    | nil => rfl
    | cons e rest ih =>
        simp [AudioInputProcessor.resumeCountRun, hstep s e, ih]
  · intro hb hf
    have he : ({ s with playbackRetryTimer := none } : ProcState).audioBuffer.isEmpty := by
      simp [hb]
    constructor <;>
      simp [AudioServiceModel.playNextSegment, AudioServiceModel.completePlayback, he, hf]

/-- Witness for C5 as amended at concrete inputs: a one-event run of the
processor performs no resume, while the service completes and resumes from a
drained stream-complete state. -/
theorem C5_completion_resume_amended_witness :
    AudioInputProcessor.resumeCountRun
        { minBufferSize := 10, targetChunks := 20, playbackRetryInterval := 7 }
        { PlaybackBuffer.initState with
            playbackState := AudioPlaybackState.PLAYING, isStreamingComplete := true }
        [AudioInputProcessor.ProcEvent.segmentEnded] = 0
    ∧ (AudioServiceModel.playNextSegment
        { PlaybackBuffer.initState with
            playbackState := AudioPlaybackState.PLAYING, isStreamingComplete := true }).resumeInvoked
      = true := by
  have h := C5_completion_resume_amended
    { minBufferSize := 10, targetChunks := 20, playbackRetryInterval := 7 }
    { PlaybackBuffer.initState with
        playbackState := AudioPlaybackState.PLAYING, isStreamingComplete := true }
  exact ⟨h.1 [AudioInputProcessor.ProcEvent.segmentEnded],
    (h.2 (by decide) (by decide)).1⟩

end ClaimFive

section ClaimEight

open Reconnect

/-- The configuration of the backoff example in the claim: reconnectDelay
1000, multiplier 1.5, cap 30000, with m allowed attempts. -/
def specBackoffCfg (m : ℕ) : ReconnectConfig :=
  { reconnectDelay := 1000
    backoffMultiplier := 3 / 2
    maxReconnectDelay := 30000
    maxReconnectAttempts := m }

/-- Past attempt 8 the uncapped backoff exceeds 30000. -/
theorem backoff_exceeds_cap (n : ℕ) (hn : 9 ≤ n) :
    (30000 : ℚ) ≤ 1000 * (3 / 2) ^ n := by
  induction n with
  | zero => omega
  | succ m ih =>
      rcases Nat.lt_or_ge m 9 with hm | hm
      · have hm9 : m = 8 := by omega
        subst hm9
        norm_num
      · have h := ih hm
        have hstep : 1000 * ((3 : ℚ) / 2) ^ m ≤ 1000 * (3 / 2) ^ (m + 1) := by
          rw [pow_succ]
          nlinarith [pow_nonneg (by norm_num : (0 : ℚ) ≤ 3 / 2) m]
        linarith

/-- Claim C8: with reconnection configured, the delay before reconnect
attempt n is min(reconnectDelay times backoffMultiplier to the n,
maxReconnectDelay); for reconnectDelay 1000, multiplier 1.5 and cap 30000
the successive delays are 1000, 1500, 2250, 3375, 5062.5, never exceed the
cap and equal the cap from attempt 9 on; and once reconnectAttempts reaches
maxReconnectAttempts, a further closure transitions the session to Error and
raises ReconnectExhausted with no retry scheduled, while below the limit each
closure schedules a retry after exactly the computed delay.  The reconnect
implementation is not under src, so this is settled against the model built
from the spec. -/
theorem C8_reconnect_backoff (m : ℕ) (s : SessionState) :
    reconnectDelayFor (specBackoffCfg m) 0 = 1000
    ∧ reconnectDelayFor (specBackoffCfg m) 1 = 1500
    ∧ reconnectDelayFor (specBackoffCfg m) 2 = 2250
    ∧ reconnectDelayFor (specBackoffCfg m) 3 = 3375
    ∧ reconnectDelayFor (specBackoffCfg m) 4 = 10125 / 2
    ∧ (∀ n, reconnectDelayFor (specBackoffCfg m) n ≤ 30000)
    ∧ (∀ n, 9 ≤ n → reconnectDelayFor (specBackoffCfg m) n = 30000)
    ∧ (s.reconnectAttempts < m →
        onUnexpectedClose (specBackoffCfg m) s =
          ({ connState := ConnState.Connecting, reconnectAttempts := s.reconnectAttempts + 1 },
            CloseOutcome.retryAfter (reconnectDelayFor (specBackoffCfg m) s.reconnectAttempts)))
    ∧ (m ≤ s.reconnectAttempts →
        onUnexpectedClose (specBackoffCfg m) s =
          ({ s with connState := ConnState.Error }, CloseOutcome.reconnectExhausted))
    ∧ (s.reconnectAttempts = 0 →
        (afterFailures (specBackoffCfg m) s m).reconnectAttempts = m
        ∧ (onUnexpectedClose (specBackoffCfg m) (afterFailures (specBackoffCfg m) s m)).2
            = CloseOutcome.reconnectExhausted
        ∧ (onUnexpectedClose (specBackoffCfg m) (afterFailures (specBackoffCfg m) s m)).1.connState
            = ConnState.Error) := by
  have hcount : ∀ k : ℕ, s.reconnectAttempts = 0 → k ≤ m →
      (afterFailures (specBackoffCfg m) s k).reconnectAttempts = k := by
    intro k h0 hk
    induction k with
    | zero => simpa [afterFailures] using h0
    | succ j ih =>
        have hj : j ≤ m := by omega
        have hlt : (afterFailures (specBackoffCfg m) s j).reconnectAttempts
            < (specBackoffCfg m).maxReconnectAttempts := by
          rw [ih hj]
          simpa [specBackoffCfg] using hk
        simp only [afterFailures, onUnexpectedClose, if_pos hlt]
        rw [ih hj]
  refine ⟨by norm_num [reconnectDelayFor, specBackoffCfg],
    by norm_num [reconnectDelayFor, specBackoffCfg],
    by norm_num [reconnectDelayFor, specBackoffCfg],
    by norm_num [reconnectDelayFor, specBackoffCfg],
    by norm_num [reconnectDelayFor, specBackoffCfg], ?_, ?_, ?_, ?_, ?_⟩
  · intro n
    exact min_le_right _ _
  · intro n hn
    exact min_eq_right (backoff_exceeds_cap n hn)
  · intro hlt
    simp [onUnexpectedClose, specBackoffCfg, hlt]
  · intro hge
    have hnot : ¬ s.reconnectAttempts < m := by omega
    simp [onUnexpectedClose, specBackoffCfg, hnot]
  · intro h0
    have hm := hcount m h0 (le_refl m)
    have hnot : ¬ (afterFailures (specBackoffCfg m) s m).reconnectAttempts
        < (specBackoffCfg m).maxReconnectAttempts := by
      rw [hm]
      simp [specBackoffCfg]
    refine ⟨hm, ?_, ?_⟩ <;> simp [onUnexpectedClose, hnot]

/-- Witness for C8 with five allowed attempts from a fresh connected session. -/
theorem C8_reconnect_backoff_witness :
    reconnectDelayFor (specBackoffCfg 5) 4 = 10125 / 2
    ∧ (onUnexpectedClose (specBackoffCfg 5)
        (afterFailures (specBackoffCfg 5)
          { connState := ConnState.Connected, reconnectAttempts := 0 } 5)).2
      = CloseOutcome.reconnectExhausted := by
  have h := C8_reconnect_backoff 5 { connState := ConnState.Connected, reconnectAttempts := 0 }
  exact ⟨h.2.2.2.2.1, (h.2.2.2.2.2.2.2.2.2 rfl).2.1⟩

end ClaimEight

section ClaimNine

open ClientModel

/-- A disconnected client is a fixed point of clientDisconnect. -/
theorem clientDisconnect_fixed (u : ClientState) (hu : u.connected = false) :
    clientDisconnect u = u := by
  simp [clientDisconnect, hu]

/-- Claim C9: connect and disconnect are idempotent at their fixed points —
connect while already connected changes nothing (metrics included) and emits
nothing, disconnect while already disconnected changes nothing and emits no
event, and a connected state followed by two disconnect calls emits exactly
one disconnected event, the second call being a no-op.  The ConnectionState
and WebSocketService internals are not under src, so the effect of the
underlying socket disconnect is the one the spec describes; the guards are
from ModoVoiceClient.ts. -/
theorem C9_idempotent_lifecycle (s : ClientState) :
    (s.connected = true →
        clientConnect s = s ∧ (clientConnect s).metrics = s.metrics)
    ∧ (s.connected = false →
        clientDisconnect s = s)
    ∧ (s.connected = true →
        clientDisconnect (clientDisconnect s) = clientDisconnect s
        ∧ eventCount ClientEventKind.disconnectedEv (clientDisconnect (clientDisconnect s))
            = eventCount ClientEventKind.disconnectedEv s + 1) := by
  refine ⟨?_, ?_, ?_⟩
  · intro h
    constructor <;> simp [clientConnect, h]
  · intro h
    exact clientDisconnect_fixed s h
  · intro h
    have h1 : (clientDisconnect s).connected = false := by
      simp [clientDisconnect, h, wsDisconnect]
    have hfix := clientDisconnect_fixed (clientDisconnect s) h1
    refine ⟨hfix, ?_⟩
    rw [hfix]
    simp [clientDisconnect, h, wsDisconnect, eventCount, List.filter_append]

/-- A concrete connected client state. -/
def connectedClient : ClientState :=
  { connected := true
    metrics :=
      { reconnectAttempts := 2
        bytesSent := 10
        bytesReceived := 20
        messagesSent := 3
        messagesReceived := 4 }
    initialized := true
    events := [ClientEventKind.connectedEv] }

/-- Witness for C9 from a concrete connected state. -/
theorem C9_idempotent_lifecycle_witness :
    clientConnect connectedClient = connectedClient
    ∧ eventCount ClientEventKind.disconnectedEv
        (clientDisconnect (clientDisconnect connectedClient)) = 1 := by
  have h := C9_idempotent_lifecycle connectedClient
  refine ⟨(h.1 rfl).1, ?_⟩
  rw [(h.2.2 rfl).2]
  decide

end ClaimNine

section ClaimThree

open MicrophoneGate

/-- Call schedule of the C3 scenario: pause and a first resume request at
time 0, a second resume request at time 3, within the resume delay of 5. -/
def c3sched : ℕ → List GateCall := fun t =>
  if t = 0 then [GateCall.pauseCall, GateCall.resumeCall]
  else if t = 3 then [GateCall.resumeCall] else []

/-- Claim C3 evaluated on the code (resumeDelay 5, failsafeResumeTimeout
100): after the second request two debounced resume timers are outstanding —
the second request cancelled the failsafe-cancelling timer, not the resume
timer of the first request — and the gate unpauses at time 5, resumeDelay
after the first request, while the claim requires at most one outstanding
resume timer and a single unpause at time 8, resumeDelay after the last
request. -/
theorem C3_debounce_code_eval :
    (gateRun 5 100 c3sched 4).paused = true
    ∧ pendingResumeTimers (gateRun 5 100 c3sched 4) = 2
    ∧ (gateRun 5 100 c3sched 5).paused = false
    ∧ (gateRun 5 100 c3sched 7).paused = false := by
  decide

end ClaimThree

section ClaimFour

open MicrophoneGate

/-- Call schedule of the C4 counterexample: pause and a first resume request
at time 0, a second resume request at time 2, within the resume delay of 4. -/
def c4sched : ℕ → List GateCall := fun t =>
  if t = 0 then [GateCall.pauseCall, GateCall.resumeCall]
  else if t = 2 then [GateCall.resumeCall] else []

/-- Counterexample to the mechanism clause of claim C4: the failsafe timer is
not started at most once per resume episode and not only when none is
running.  With resumeDelay 4 and failsafeResumeTimeout 50, one failsafe timer
is pending after the first request and a second one has been started by the
second request while the first was still running. -/
theorem C4_failsafe_counterexample :
    pendingFailsafeTimers (gateRun 4 50 c4sched 0) = 1
    ∧ pendingFailsafeTimers (gateRun 4 50 c4sched 2) = 2 := by
  decide

/-- Timer bookkeeping invariant of the gate: pending ids are below the fresh
counter and strictly increasing along the queue; the id stored in
micResumeTimeout only ever denotes a failsafe-cancelling timeout; a
failsafe-cancelling timeout only ever targets the id of a failsafe timeout,
and that target id is below the fresh counter. -/
structure GateInv (s : GateState) : Prop where
  idLt : ∀ t ∈ s.timers, t.id < s.nextId
  sorted : s.timers.Pairwise (fun a b => a.id < b.id)
  mrt : ∀ i, s.micResumeTimeout = some i → ∀ t ∈ s.timers, t.id = i →
    ∃ fid, t.action = TimerAction.cancelFailsafe fid
  cfTarget : ∀ t ∈ s.timers, ∀ fid, t.action = TimerAction.cancelFailsafe fid →
    ∀ u ∈ s.timers, u.id = fid → u.action = TimerAction.failsafeMsg
  cfLt : ∀ t ∈ s.timers, ∀ fid, t.action = TimerAction.cancelFailsafe fid → fid < s.nextId

theorem mem_clearTimeoutId {t : GateTimer} {i : ℕ} {l : List GateTimer} :
    t ∈ clearTimeoutId i l ↔ t ∈ l ∧ t.id ≠ i := by
  simp [clearTimeoutId]

theorem clearTimeoutId_sublist (i : ℕ) (l : List GateTimer) :
    (clearTimeoutId i l).Sublist l :=
  List.filter_sublist l

theorem length_clearTimeoutId_lt {t : GateTimer} {l : List GateTimer} (ht : t ∈ l) :
    (clearTimeoutId t.id l).length < l.length := by
  rcases Nat.lt_or_ge (clearTimeoutId t.id l).length l.length with h | h
  · exact h
  · exfalso
    have heq : clearTimeoutId t.id l = l :=
      List.Sublist.eq_of_length_le (clearTimeoutId_sublist t.id l) h
    have := (mem_clearTimeoutId.mp (heq ▸ ht)).2
    exact this rfl

theorem gateInv_clear {s : GateState} (h : GateInv s) (i : ℕ) :
    GateInv { s with timers := clearTimeoutId i s.timers } := by
  refine ⟨?_, ?_, ?_, ?_, ?_⟩
  · intro t ht
    exact h.idLt t (mem_clearTimeoutId.mp ht).1
  · exact h.sorted.sublist (clearTimeoutId_sublist i s.timers)
  · intro j hj t ht hid
    exact h.mrt j hj t (mem_clearTimeoutId.mp ht).1 hid
  · intro t ht fid hact u hu hid
    exact h.cfTarget t (mem_clearTimeoutId.mp ht).1 fid hact u (mem_clearTimeoutId.mp hu).1 hid
  · intro t ht fid hact
    exact h.cfLt t (mem_clearTimeoutId.mp ht).1 fid hact

theorem gateInv_clearCurrent {s : GateState} (h : GateInv s) :
    GateInv (clearCurrent s) := by
  cases hm : s.micResumeTimeout with
  | none => simpa [clearCurrent, hm] using h
  | some i =>
    have := gateInv_clear h i
    simpa [clearCurrent, hm] using this

theorem clearCurrent_paused (s : GateState) : (clearCurrent s).paused = s.paused := by
  cases hm : s.micResumeTimeout <;> simp [clearCurrent, hm]

theorem clearCurrent_timers_subset {s : GateState} {t : GateTimer}
    (ht : t ∈ (clearCurrent s).timers) : t ∈ s.timers := by
  cases hm : s.micResumeTimeout with
  | none => simpa [clearCurrent, hm] using ht
  | some i =>
    rw [clearCurrent, hm] at ht
    exact (mem_clearTimeoutId.mp ht).1

/-- The three setTimeout calls of resumeMicrophone, written as one record:
after the initial clear, the queue gains the debounced resume timeout, the
failsafe timeout, and the failsafe-cancelling timeout, in creation order, and
micResumeTimeout ends up holding the id of the last. -/
theorem resumeMicrophone_eq (d f now : ℕ) (s : GateState) :
    resumeMicrophone d f now s =
      { paused := (clearCurrent s).paused
        timers := (clearCurrent s).timers ++
          [{ id := (clearCurrent s).nextId, fireAt := now + d, action := TimerAction.resumeMsg },
            { id := (clearCurrent s).nextId + 1, fireAt := now + f,
              action := TimerAction.failsafeMsg },
            { id := (clearCurrent s).nextId + 2, fireAt := now + d,
              action := TimerAction.cancelFailsafe ((clearCurrent s).nextId + 1) }]
        micResumeTimeout := some ((clearCurrent s).nextId + 2)
        nextId := (clearCurrent s).nextId + 3 } := by
  cases hm : s.micResumeTimeout <;> simp [resumeMicrophone, clearCurrent, hm]

theorem gateInv_append3 (p : Bool) (l : List GateTimer) (mr : Option ℕ) (n : ℕ)
    (h : GateInv { paused := p, timers := l, micResumeTimeout := mr, nextId := n })
    (x y : ℕ) :
    GateInv
      { paused := p
        timers := l ++
          [{ id := n, fireAt := x, action := TimerAction.resumeMsg },
            { id := n + 1, fireAt := y, action := TimerAction.failsafeMsg },
            { id := n + 2, fireAt := x, action := TimerAction.cancelFailsafe (n + 1) }]
        micResumeTimeout := some (n + 2)
        nextId := n + 3 } := by
  refine ⟨?_, ?_, ?_, ?_, ?_⟩
  · intro t ht
    show t.id < n + 3
    simp only [List.mem_append, List.mem_cons, List.not_mem_nil, or_false] at ht
    rcases ht with ht | rfl | rfl | rfl
    · have hlt : t.id < n := h.idLt t ht
      omega
    · show n < n + 3
      omega
    · show n + 1 < n + 3
      omega
    · show n + 2 < n + 3
      omega
  · show (l ++ _).Pairwise _
    rw [List.pairwise_append]
    refine ⟨h.sorted, ?_, ?_⟩
    · refine List.pairwise_cons.mpr ⟨?_, List.pairwise_cons.mpr ⟨?_, ?_⟩⟩
      · intro b hb
        simp only [List.mem_cons, List.not_mem_nil, or_false] at hb
        rcases hb with rfl | rfl
        · show n < n + 1
          omega
        · show n < n + 2
          omega
      · intro b hb
        simp only [List.mem_cons, List.not_mem_nil, or_false] at hb
        rcases hb with rfl
        show n + 1 < n + 2
        omega
      · exact List.pairwise_singleton _ _
    · intro a ha b hb
      have hlt : a.id < n := h.idLt a ha
      simp only [List.mem_cons, List.not_mem_nil, or_false] at hb
      rcases hb with rfl | rfl | rfl
      · show a.id < n
        omega
      · show a.id < n + 1
        omega
      · show a.id < n + 2
        omega
  · intro i hi t ht hid
    have hi2 : n + 2 = i := by
      injection hi
    subst hi2
    simp only [List.mem_append, List.mem_cons, List.not_mem_nil, or_false] at ht
    rcases ht with ht | rfl | rfl | rfl
    · have hlt : t.id < n := h.idLt t ht
      exact absurd hid (by omega)
    · exact absurd hid (by show ¬ n = n + 2; omega)
    · exact absurd hid (by show ¬ n + 1 = n + 2; omega)
    · exact ⟨n + 1, rfl⟩
  · intro t ht fid hact u hu hid
    simp only [List.mem_append, List.mem_cons, List.not_mem_nil, or_false] at ht hu
    rcases ht with ht | rfl | rfl | rfl
    · have hflt : fid < n := h.cfLt t ht fid hact
      rcases hu with hu | rfl | rfl | rfl
      · exact h.cfTarget t ht fid hact u hu hid
      · exact absurd hid (by show ¬ n = fid; omega)
      · exact absurd hid (by show ¬ n + 1 = fid; omega)
      · exact absurd hid (by show ¬ n + 2 = fid; omega)
    · cases hact
    · cases hact
    · have hfid : n + 1 = fid := by
        injection hact
      subst hfid
      rcases hu with hu | rfl | rfl | rfl
      · have hlt : u.id < n := h.idLt u hu
        exact absurd hid (by omega)
      · exact absurd hid (by show ¬ n = n + 1; omega)
      · rfl
      · exact absurd hid (by show ¬ n + 2 = n + 1; omega)
  · intro t ht fid hact
    show fid < n + 3
    simp only [List.mem_append, List.mem_cons, List.not_mem_nil, or_false] at ht
    rcases ht with ht | rfl | rfl | rfl
    · have hflt : fid < n := h.cfLt t ht fid hact
      omega
    · cases hact
    · cases hact
    · have hfid : n + 1 = fid := by
        injection hact
      omega

theorem gateInv_resume {s : GateState} (h : GateInv s) (d f now : ℕ) :
    GateInv (resumeMicrophone d f now s) := by
  have h1 : GateInv (clearCurrent s) := gateInv_clearCurrent h
  rw [resumeMicrophone_eq]
  rcases hcs : clearCurrent s with ⟨p, l, mr, n⟩
  rw [hcs] at h1
  exact gateInv_append3 p l mr n h1 (now + d) (now + f)

theorem gateInv_runAction {s : GateState} (h : GateInv s) (a : TimerAction) :
    GateInv (runAction s a) := by
  cases a with
  | resumeMsg =>
    refine ⟨h.idLt, h.sorted, ?_, h.cfTarget, h.cfLt⟩
    intro i hi
    cases hi
  | failsafeMsg => exact ⟨h.idLt, h.sorted, h.mrt, h.cfTarget, h.cfLt⟩
  | cancelFailsafe fid => exact gateInv_clear h fid

theorem gateInv_doCall {s : GateState} (h : GateInv s) (d f now : ℕ) (c : GateCall) :
    GateInv (doCall d f now s c) := by
  cases c with
  | pauseCall => exact ⟨h.idLt, h.sorted, h.mrt, h.cfTarget, h.cfLt⟩
  | resumeCall => exact gateInv_resume h d f now

theorem gateInv_foldCalls {s : GateState} (h : GateInv s) (d f now : ℕ)
    (calls : List GateCall) : GateInv (calls.foldl (doCall d f now) s) := by
  induction calls generalizing s with
  | nil => exact h
  | cons c rest ih => exact ih (gateInv_doCall h d f now c)

theorem gateInv_fireDueAux (fuel : ℕ) :
    ∀ s : GateState, GateInv s → ∀ now : ℕ, GateInv (fireDueAux fuel s now) := by
  induction fuel with
  | zero => intro s h now; exact h
  | succ k ih =>
    intro s h now
    simp only [fireDueAux]
    split
    · exact h
    · rename_i t heq
      exact ih _ (gateInv_runAction (gateInv_clear h t.id) t.action) now

theorem gateInv_step {s : GateState} (h : GateInv s) (d f now : ℕ)
    (sched : ℕ → List GateCall) : GateInv (gateStep d f sched now s) := by
  unfold gateStep fireDue
  exact gateInv_fireDueAux _ _ (gateInv_foldCalls h d f now (sched now)) now

theorem gateInv_init : GateInv initGate := by
  refine ⟨?_, ?_, ?_, ?_, ?_⟩ <;> simp [initGate]

theorem gateInv_run (d f : ℕ) (sched : ℕ → List GateCall) (n : ℕ) :
    GateInv (gateRun d f sched n) := by
  induction n with
  | zero => exact gateInv_step gateInv_init d f 0 sched
  | succ k ih => exact gateInv_step ih d f (k + 1) sched

theorem dueMin_mem {l : List GateTimer} {now : ℕ} {t : GateTimer}
    (h : dueMin l now = some t) : t ∈ l ∧ t.fireAt ≤ now := by
  induction l generalizing t with
  | nil => cases h
  | cons a rest ih =>
    rw [dueMin] at h
    split at h
    · split at h
      · rename_i hfa
        injection h with h
        subst h
        exact ⟨List.mem_cons_self a rest, hfa⟩
      · cases h
    · rename_i b heq
      split at h
      · rename_i hc
        injection h with h
        subst h
        exact ⟨List.mem_cons_self a rest, hc.1⟩
      · injection h with h
        subst h
        rcases ih heq with ⟨hmem, hdue⟩
        exact ⟨List.mem_cons_of_mem a hmem, hdue⟩

theorem dueMin_none {l : List GateTimer} {now : ℕ}
    (h : dueMin l now = none) : ∀ t ∈ l, ¬ t.fireAt ≤ now := by
  induction l with
  | nil =>
    intro t ht
    cases ht
  | cons a rest ih =>
    intro t ht
    rw [dueMin] at h
    split at h
    · rename_i heq
      split at h
      · cases h
      · rename_i hfa
        rcases List.mem_cons.mp ht with rfl | ht2
        · exact hfa
        · exact ih heq t ht2
    · rename_i b heq
      split at h <;> cases h

theorem pairwise_id_ne {l : List GateTimer} (h : l.Pairwise (fun a b => a.id < b.id))
    {a b : GateTimer} (ha : a ∈ l) (hb : b ∈ l) (hne : a ≠ b) : a.id ≠ b.id := by
  induction l with
  | nil => cases ha
  | cons x xs ih =>
    rcases List.pairwise_cons.mp h with ⟨hx, hxs⟩
    rcases List.mem_cons.mp ha with rfl | ha2
    · rcases List.mem_cons.mp hb with rfl | hb2
      · exact absurd rfl hne
      · have := hx b hb2
        omega
    · rcases List.mem_cons.mp hb with rfl | hb2
      · have := hx a ha2
        omega
      · exact ih hxs ha2 hb2

theorem mem_resume_preserved {s : GateState} (h : GateInv s) {tm : GateTimer}
    (htm : tm ∈ s.timers) (ha : ∀ fid, tm.action ≠ TimerAction.cancelFailsafe fid)
    (d f now : ℕ) : tm ∈ (resumeMicrophone d f now s).timers := by
  rw [resumeMicrophone_eq]
  apply List.mem_append_left
  cases hm : s.micResumeTimeout with
  | none => simpa [clearCurrent, hm] using htm
  | some i =>
    rw [clearCurrent, hm]
    apply mem_clearTimeoutId.mpr
    refine ⟨htm, ?_⟩
    intro hid
    rcases h.mrt i hm tm htm hid with ⟨fid, hfid⟩
    exact ha fid hfid

theorem mem_doCall_preserved {s : GateState} (h : GateInv s) {tm : GateTimer}
    (htm : tm ∈ s.timers) (ha : ∀ fid, tm.action ≠ TimerAction.cancelFailsafe fid)
    (d f now : ℕ) (c : GateCall) : tm ∈ (doCall d f now s c).timers := by
  cases c with
  | pauseCall => exact htm
  | resumeCall => exact mem_resume_preserved h htm ha d f now

theorem mem_foldCalls_preserved {s : GateState} (h : GateInv s) {tm : GateTimer}
    (htm : tm ∈ s.timers) (ha : ∀ fid, tm.action ≠ TimerAction.cancelFailsafe fid)
    (d f now : ℕ) (calls : List GateCall) :
    tm ∈ (calls.foldl (doCall d f now) s).timers := by
  induction calls generalizing s with
  | nil => exact htm
  | cons c rest ih =>
    exact ih (gateInv_doCall h d f now c) (mem_doCall_preserved h htm ha d f now c)

theorem resume_creates (s : GateState) (d f now : ℕ) :
    ({ id := (clearCurrent s).nextId, fireAt := now + d,
        action := TimerAction.resumeMsg } : GateTimer)
      ∈ (resumeMicrophone d f now s).timers := by
  rw [resumeMicrophone_eq]
  apply List.mem_append_right
  simp

theorem foldCalls_creates {s : GateState} (h : GateInv s) (d f now : ℕ)
    {calls : List GateCall} (hc : GateCall.resumeCall ∈ calls) :
    ∃ tm ∈ (calls.foldl (doCall d f now) s).timers,
      tm.action = TimerAction.resumeMsg ∧ tm.fireAt = now + d := by
  induction calls generalizing s with
  | nil => cases hc
  | cons c rest ih =>
    simp only [List.foldl_cons]
    rcases List.mem_cons.mp hc with hc1 | hc2
    · subst hc1
      refine ⟨_, mem_foldCalls_preserved (gateInv_resume h d f now)
        (resume_creates s d f now) ?_ d f now rest, rfl, rfl⟩
      intro fid hfid
      cases hfid
    · exact ih (gateInv_doCall h d f now c) hc2

theorem fireDueAux_paused_mono (fuel : ℕ) :
    ∀ s : GateState, s.paused = false → ∀ now : ℕ,
      (fireDueAux fuel s now).paused = false := by
  induction fuel with
  | zero => intro s h now; exact h
  | succ k ih =>
    intro s h now
    simp only [fireDueAux]
    split
    · exact h
    · rename_i t heq
      apply ih
      cases ha : t.action <;> simp [runAction, h]

theorem fireDueAux_keeps_future (fuel : ℕ) :
    ∀ s : GateState, GateInv s → ∀ tm : GateTimer, tm ∈ s.timers →
      tm.action = TimerAction.resumeMsg → ∀ now : ℕ, now < tm.fireAt →
      tm ∈ (fireDueAux fuel s now).timers := by
  induction fuel with
  | zero => intro s _ tm htm _ now _; exact htm
  | succ k ih =>
    intro s h tm htm hact now hfut
    simp only [fireDueAux]
    split
    · exact htm
    · rename_i t heq
      rcases dueMin_mem heq with ⟨htmem, htdue⟩
      have hne : tm ≠ t := by
        intro he
        subst he
        omega
      have hidne : tm.id ≠ t.id := pairwise_id_ne h.sorted htm htmem hne
      have htm1 : tm ∈ clearTimeoutId t.id s.timers := mem_clearTimeoutId.mpr ⟨htm, hidne⟩
      have h1 : GateInv { s with timers := clearTimeoutId t.id s.timers } :=
        gateInv_clear h t.id
      apply ih _ (gateInv_runAction h1 t.action) tm _ hact now hfut
      cases hta : t.action with
      | resumeMsg => exact htm1
      | failsafeMsg => exact htm1
      | cancelFailsafe fid =>
        apply mem_clearTimeoutId.mpr
        refine ⟨htm1, ?_⟩
        intro hid
        have := h.cfTarget t htmem fid hta tm htm hid
        rw [hact] at this
        cases this

theorem fireDueAux_fires (fuel : ℕ) :
    ∀ s : GateState, GateInv s → ∀ tm : GateTimer, tm ∈ s.timers →
      tm.action = TimerAction.resumeMsg → ∀ now : ℕ, tm.fireAt ≤ now →
      s.timers.length ≤ fuel → (fireDueAux fuel s now).paused = false := by
  induction fuel with
  | zero =>
    intro s _ tm htm _ now _ hlen
    have hnil : s.timers = [] := List.length_eq_zero.mp (Nat.le_zero.mp hlen)
    rw [hnil] at htm
    cases htm
  | succ k ih =>
    intro s h tm htm hact now hdue hlen
    simp only [fireDueAux]
    split
    · rename_i heq
      exact absurd hdue (dueMin_none heq tm htm)
    · rename_i t heq
      rcases dueMin_mem heq with ⟨htmem, htdue⟩
      cases hta : t.action with
      | resumeMsg =>
        apply fireDueAux_paused_mono
        simp [runAction, hta]
      | failsafeMsg =>
        apply fireDueAux_paused_mono
        simp [runAction, hta]
      | cancelFailsafe fid =>
        have hne : tm ≠ t := by
          intro he
          rw [he, hta] at hact
          cases hact
        have hidne : tm.id ≠ t.id := pairwise_id_ne h.sorted htm htmem hne
        have htm1 : tm ∈ clearTimeoutId t.id s.timers := mem_clearTimeoutId.mpr ⟨htm, hidne⟩
        have h1 : GateInv { s with timers := clearTimeoutId t.id s.timers } :=
          gateInv_clear h t.id
        have hfidne : tm.id ≠ fid := by
          intro hid
          have := h.cfTarget t htmem fid hta tm htm hid
          rw [hact] at this
          cases this
        have hlt : (clearTimeoutId t.id s.timers).length < s.timers.length :=
          length_clearTimeoutId_lt htmem
        apply ih _ (gateInv_runAction h1 (TimerAction.cancelFailsafe fid)) tm _ hact now hdue
        · have hle2 : (clearTimeoutId fid (clearTimeoutId t.id s.timers)).length
              ≤ (clearTimeoutId t.id s.timers).length := List.length_filter_le _ _
          simp only [runAction]
          omega
        · apply mem_clearTimeoutId.mpr
          exact ⟨htm1, hfidne⟩

theorem gateStep_fires {s : GateState} (h : GateInv s) {tm : GateTimer}
    (htm : tm ∈ s.timers) (hact : tm.action = TimerAction.resumeMsg)
    (d f now : ℕ) (sched : ℕ → List GateCall) (hdue : tm.fireAt ≤ now) :
    (gateStep d f sched now s).paused = false := by
  unfold gateStep fireDue
  have h1 := gateInv_foldCalls h d f now (sched now)
  have htm1 := mem_foldCalls_preserved h htm
    (by intro fid hfid; rw [hact] at hfid; cases hfid) d f now (sched now)
  exact fireDueAux_fires _ _ h1 tm htm1 hact now hdue (le_refl _)

theorem gateStep_keeps_future {s : GateState} (h : GateInv s) {tm : GateTimer}
    (htm : tm ∈ s.timers) (hact : tm.action = TimerAction.resumeMsg)
    (d f now : ℕ) (sched : ℕ → List GateCall) (hfut : now < tm.fireAt) :
    tm ∈ (gateStep d f sched now s).timers := by
  unfold gateStep fireDue
  have h1 := gateInv_foldCalls h d f now (sched now)
  have htm1 := mem_foldCalls_preserved h htm
    (by intro fid hfid; rw [hact] at hfid; cases hfid) d f now (sched now)
  exact fireDueAux_keeps_future _ _ h1 tm htm1 hact now hfut

theorem gateStep_creates {s : GateState} (h : GateInv s)
    (d f now : ℕ) (sched : ℕ → List GateCall)
    (hres : GateCall.resumeCall ∈ sched now) (hd : 1 ≤ d) :
    ∃ tm ∈ (gateStep d f sched now s).timers,
      tm.action = TimerAction.resumeMsg ∧ tm.fireAt = now + d := by
  unfold gateStep fireDue
  rcases foldCalls_creates h d f now hres with ⟨tm, htm, hact, hfire⟩
  refine ⟨tm, ?_, hact, hfire⟩
  have h1 := gateInv_foldCalls h d f now (sched now)
  apply fireDueAux_keeps_future _ _ h1 tm htm hact now
  omega

theorem foldCalls_paused_false {s : GateState} (h : s.paused = false)
    (d f now : ℕ) {calls : List GateCall} (hnp : GateCall.pauseCall ∉ calls) :
    (calls.foldl (doCall d f now) s).paused = false := by
  induction calls generalizing s with
  | nil => exact h
  | cons c rest ih =>
    simp only [List.foldl_cons]
    cases c with
    | pauseCall => exact absurd (List.mem_cons_self _ _) hnp
    | resumeCall =>
      apply ih
      · show (resumeMicrophone d f now s).paused = false
        rw [resumeMicrophone_eq]
        show (clearCurrent s).paused = false
        rw [clearCurrent_paused]
        exact h
      · intro hmem
        exact hnp (List.mem_cons_of_mem _ hmem)

theorem gateStep_keeps_false {s : GateState} (h : s.paused = false)
    (d f now : ℕ) {sched : ℕ → List GateCall}
    (hnp : GateCall.pauseCall ∉ sched now) :
    (gateStep d f sched now s).paused = false := by
  unfold gateStep fireDue
  exact fireDueAux_paused_mono _ _ (foldCalls_paused_false h d f now hnp) now

theorem run_timer_window (d f : ℕ) (sched : ℕ → List GateCall) (t0 : ℕ)
    (hd : 1 ≤ d) (hres : GateCall.resumeCall ∈ sched t0) :
    ∀ n : ℕ, t0 ≤ n → n < t0 + d →
      ∃ tm ∈ (gateRun d f sched n).timers,
        tm.action = TimerAction.resumeMsg ∧ tm.fireAt = t0 + d := by
  intro n
  induction n with
  | zero =>
    intro h0 _
    have ht0 : t0 = 0 := Nat.le_zero.mp h0
    subst ht0
    exact gateStep_creates gateInv_init d f 0 sched hres hd
  | succ k ih =>
    intro h0 hlt
    by_cases hk : t0 ≤ k
    · rcases ih hk (by omega) with ⟨tm, htm, hact, hfire⟩
      have hinv := gateInv_run d f sched k
      refine ⟨tm, ?_, hact, hfire⟩
      apply gateStep_keeps_future hinv htm hact d f (k + 1) sched
      omega
    · have ht0 : t0 = k + 1 := by omega
      subst ht0
      exact gateStep_creates (gateInv_run d f sched k) d f (k + 1) sched hres hd

theorem run_paused_false_at_fire (d f : ℕ) (sched : ℕ → List GateCall) (t0 : ℕ)
    (hd : 1 ≤ d) (hres : GateCall.resumeCall ∈ sched t0) :
    (gateRun d f sched (t0 + d)).paused = false := by
  rcases run_timer_window d f sched t0 hd hres (t0 + d - 1) (by omega) (by omega)
    with ⟨tm, htm, hact, hfire⟩
  have hinv := gateInv_run d f sched (t0 + d - 1)
  have heq : t0 + d = (t0 + d - 1) + 1 := by omega
  rw [heq]
  apply gateStep_fires hinv htm hact d f ((t0 + d - 1) + 1) sched
  omega

theorem run_paused_stays_false (d f : ℕ) (sched : ℕ → List GateCall) (n : ℕ)
    (h : (gateRun d f sched n).paused = false) :
    ∀ N, n ≤ N → (∀ t, n < t → t ≤ N → GateCall.pauseCall ∉ sched t) →
      (gateRun d f sched N).paused = false := by
  intro N
  induction N with
  | zero =>
    intro h0 _
    have : n = 0 := Nat.le_zero.mp h0
    subst this
    exact h
  | succ k ih =>
    intro hnk hnp
    by_cases hk : n ≤ k
    · have hk1 := ih hk (fun t ht1 ht2 => hnp t ht1 (by omega))
      exact gateStep_keeps_false hk1 d f (k + 1) (hnp (k + 1) (by omega) (le_refl _))
    · have : n = k + 1 := by omega
      subst this
      exact h

/-- Claim C4 as amended: for every call schedule containing a resume request
at time t0 and no pause call after t0 up to the horizon, the paused flag of
the gate is false at every time from t0 plus resumeDelay on — in particular
no later than failsafeResumeTimeout after the first request whenever
resumeDelay is at most failsafeResumeTimeout.  The reason is not the one the
claim gives: the debounced resume timeout created by the first request is
itself never cancelled (later requests clear only the failsafe-cancelling
timeout stored in micResumeTimeout, and fired or cancelled timeouts only ever
remove failsafe timeouts), so it fires unconditionally at t0 plus
resumeDelay; the failsafe timer, far from being started at most once, is
started anew by every request. -/
theorem C4_failsafe_amended (d f t0 T : ℕ) (sched : ℕ → List GateCall)
    (hd : 1 ≤ d) (hdf : d ≤ f)
    (hres : GateCall.resumeCall ∈ sched t0)
    (hnp : ∀ t, t0 < t → t ≤ T → GateCall.pauseCall ∉ sched t)
    (hT : t0 + f ≤ T) :
    (gateRun d f sched T).paused = false := by
  have h1 := run_paused_false_at_fire d f sched t0 hd hres
  apply run_paused_stays_false d f sched (t0 + d) h1 T (by omega)
  intro t ht1 ht2
  exact hnp t (by omega) ht2

/-- Call schedule of the C4 witness: a single resume request at time 0. -/
def c4wsched : ℕ → List GateCall := fun t => if t = 0 then [GateCall.resumeCall] else []

/-- Witness for C4 as amended: with resumeDelay 2 and failsafe timeout 3, the
gate is unpaused at time 3. -/
theorem C4_failsafe_amended_witness : (gateRun 2 3 c4wsched 3).paused = false := by
  apply C4_failsafe_amended 2 3 0 3 c4wsched (by omega) (by omega) (by decide)
    ?_ (by omega)
  intro t ht1 _ hmem
  have ht : t ≠ 0 := by omega
  rw [c4wsched] at hmem
  rw [if_neg ht] at hmem
  cases hmem

end ClaimFour
